import Mathlib

/-!
# PageKite tunnel protocol header (`pkproto.h`)

A shallow embedding of the constants and format strings of `pkproto.h`,
together with the fragment of the C `printf` family that those format
strings use, and proofs about the text they produce.

A C string is modelled as the list of its `char`s, one list element per
byte, so `List.length` is `strlen`.
-/

namespace PkProto

/-- A C string: the sequence of its bytes, the terminating NUL not included. -/
abbrev CStr := List Char

/-! ## The `printf` fragment used by the header

The format strings of the header use ordinary characters, `%s`, `%.<digits>s`
and nothing else.  The interpreter below reads a format string one character
at a time, exactly as the C library does; any other conversion
specification, an unfinished one, or a conversion with no argument left (all
undefined behaviour in C) makes the result `none`.
-/

/-- Where the interpreter stands inside the format string. -/
inductive FmtState
  | text
  | percent
  | precision (n : Nat)
  deriving DecidableEq, Repr

/-- Interpreter state: position kind, arguments not yet consumed, output so far. -/
structure Fmt where
  st : FmtState
  args : List CStr
  out : CStr
  deriving DecidableEq, Repr

/-- One character of the format string. -/
def fmt_step (f : Fmt) (c : Char) : Option Fmt :=
  match f.st with
  | FmtState.text =>
    if c = '%' then some ⟨FmtState.percent, f.args, f.out⟩
    else some ⟨FmtState.text, f.args, f.out ++ [c]⟩
  | FmtState.percent =>
    if c = '%' then some ⟨FmtState.text, f.args, f.out ++ ['%']⟩
    else if c = 's' then
      match f.args with
      | [] => none
      | a :: rest => some ⟨FmtState.text, rest, f.out ++ a⟩
    else if c = '.' then some ⟨FmtState.precision 0, f.args, f.out⟩
    else none
  | FmtState.precision n =>
    if c.isDigit then some ⟨FmtState.precision (10 * n + (c.toNat - 48)), f.args, f.out⟩
    else if c = 's' then
      match f.args with
      | [] => none
      | a :: rest => some ⟨FmtState.text, rest, f.out ++ a.take n⟩
    else none

/-- The whole format string, left to right. -/
def fmt_run : Fmt → CStr → Option Fmt
  | f, [] => some f
  | f, c :: cs => (fmt_step f c).bind fun g => fmt_run g cs

/-- The text `sprintf(buf, fmt, args...)` writes, for string arguments. -/
def sprintf (fmt : CStr) (args : List CStr) : Option CStr :=
  (fmt_run ⟨FmtState.text, args, []⟩ fmt).bind fun f =>
    if f.st = FmtState.text then some f.out else none

/-! ## Constants of `pkproto.h`

`PK_VERSION` is defined in `version.h`, which is not among the sources; the
macros that splice it into a literal take it as a parameter.
-/

def PROTO_OVERHEAD_PER_KB : Nat := 64

def PK_FRONTEND_PING : CStr := "GET /ping HTTP/1.1\r\nHost: ping.pagekite\r\n\r\n".toList
def PK_FRONTEND_PONG : CStr := "HTTP/1.1 503 Unavailable".toList

def PK_HANDSHAKE_CONNECT : CStr := "CONNECT PageKite:1 HTTP/1.0\r\n".toList

/-- The feature header; `android` selects the `#ifdef ANDROID` branch. -/
def PK_HANDSHAKE_FEATURES (android : Bool) (PK_VERSION : CStr) : CStr :=
  if android then
    "X-PageKite-Features: Mobile\r\n".toList ++
    "X-PageKite-Version: ".toList ++ PK_VERSION ++ "\r\n".toList
  else
    "X-PageKite-Version: ".toList ++ PK_VERSION ++ "\r\n".toList

def PK_HANDSHAKE_SESSION : CStr := "X-PageKite-Replace: %s\r\n".toList
def PK_HANDSHAKE_KITE : CStr := "X-PageKite: %s\r\n".toList
def PK_HANDSHAKE_END : CStr := "\r\n".toList
def PK_HANDSHAKE_SESSIONID_MAX : Nat := 256

def PK_REJECT_MAXSIZE : Nat := 1024

def PK_REJECT_FMT (PK_VERSION : CStr) : CStr :=
  "HTTP/1.1 503 Unavailable\r\n".toList ++
  "Content-Type: text/html; charset=utf-8\r\n".toList ++
  "Pragma: no-cache\r\n".toList ++
  "Expires: 0\r\n".toList ++
  "Cache-Control: no-store\r\n".toList ++
  "Connection: close\r\n".toList ++
  "\r\n".toList ++
  "<html>%s<h1>Sorry! (%.3s/".toList ++ PK_VERSION ++ ")</h1>".toList ++
  "<p>The %.8s <a href='http://pagekite.org/'>".toList ++
  "<i>PageKite</i></a> for <b>%.64s</b> is unavailable ".toList ++
  "at the moment.</p><p>Please try again later.</p>".toList ++
  "%s</html>".toList

def PK_REJECT_PRE_PAGEKITE (PK_VERSION : CStr) : CStr :=
  "<frameset cols='*'><frame target='_top' src='https://pagekite.net/offline/?&v=".toList ++
  PK_VERSION ++ "&where=%.3s&proto=%.8s&domain=%.64s'><noframes>".toList

def PK_REJECT_POST_PAGEKITE : CStr := "</noframes></frameset>".toList

def PK_EOF_READ : Nat := 0x1
def PK_EOF_WRITE : Nat := 0x2
def PK_EOF : Nat := PK_EOF_READ ||| PK_EOF_WRITE

def PK_KITE_UNKNOWN : Nat := 0x0000
def PK_KITE_FLYING : Nat := 0x0001
def PK_KITE_REJECTED : Nat := 0x0002

def PK_MAX_CHUNK_HEADERS : Nat := 64


/-! ## Pieces of the format strings

The literal stretches and conversion specifications of the two reject
formats, named so that the formats can be run piece by piece.
-/

/-- The conversion specifications that occur in the header. -/
def convS : CStr := "%s".toList
def convS3 : CStr := "%.3s".toList
def convS8 : CStr := "%.8s".toList
def convS64 : CStr := "%.64s".toList

/-- Literal text of `PK_REJECT_FMT` before its first conversion. -/
def rejHead : CStr :=
  ("HTTP/1.1 503 Unavailable\r\nContent-Type: text/html; charset=utf-8\r\n" ++
   "Pragma: no-cache\r\nExpires: 0\r\nCache-Control: no-store\r\n" ++
   "Connection: close\r\n\r\n<html>").toList

def rejSorry : CStr := "<h1>Sorry! (".toList
def rejSlash : CStr := "/".toList
def rejThe : CStr := ")</h1><p>The ".toList
def rejFor : CStr := " <a href='http://pagekite.org/'><i>PageKite</i></a> for <b>".toList
def rejLater : CStr :=
  "</b> is unavailable at the moment.</p><p>Please try again later.</p>".toList
def rejEnd : CStr := "</html>".toList

/-- The part of `PK_REJECT_FMT` that follows `PK_VERSION`. -/
def rejTailFmt : CStr :=
  rejThe ++ (convS8 ++ (rejFor ++ (convS64 ++ (rejLater ++ (convS ++ rejEnd)))))

def preHead : CStr :=
  "<frameset cols='*'><frame target='_top' src='https://pagekite.net/offline/?&v=".toList
def preWhere : CStr := "&where=".toList
def preProto : CStr := "&proto=".toList
def preDomain : CStr := "&domain=".toList
def preEnd : CStr := "'><noframes>".toList

/-- The part of `PK_REJECT_PRE_PAGEKITE` that follows `PK_VERSION`. -/
def preTailFmt : CStr :=
  preWhere ++ (convS3 ++ (preProto ++ (convS8 ++ (preDomain ++ (convS64 ++ preEnd)))))

/-- Text of the reject page, with `w` standing where `PK_VERSION` is spliced in. -/
def reject_text (w frag_pre reason proto domain frag_post : CStr) : CStr :=
  rejHead ++ (frag_pre ++ (rejSorry ++ (reason.take 3 ++ (rejSlash ++ (w ++ (rejThe ++
    (proto.take 8 ++ (rejFor ++ (domain.take 64 ++ (rejLater ++ (frag_post ++ rejEnd)))))))))))

/-- Text of the leading frameset fragment. -/
def reject_pre_text (w reason proto domain : CStr) : CStr :=
  preHead ++ (w ++ (preWhere ++ (reason.take 3 ++ (preProto ++ (proto.take 8 ++
    (preDomain ++ (domain.take 64 ++ preEnd)))))))

/-! ## The markup of a page -/

/-- Tokeniser state for the markup of a page. -/
inductive HtmlState
  | text
  | tag
  | squote
  | dquote
  deriving DecidableEq, Repr

/-- State of the tokeniser after one character. -/
def html_next (s : HtmlState) (c : Char) : HtmlState :=
  match s with
  | HtmlState.text => if c = '<' then HtmlState.tag else HtmlState.text
  | HtmlState.tag =>
    if c = '>' then HtmlState.text
    else if c = '\'' then HtmlState.squote
    else if c = '"' then HtmlState.dquote
    else HtmlState.tag
  | HtmlState.squote => if c = '\'' then HtmlState.tag else HtmlState.squote
  | HtmlState.dquote => if c = '"' then HtmlState.tag else HtmlState.dquote

/-- Whether the tokeniser keeps a character: everything from `<` to `>` is
markup, except what stands between the quotes of an attribute value. -/
def html_keep (s : HtmlState) (c : Char) : Bool :=
  match s with
  | HtmlState.text => c = '<'
  | HtmlState.tag => true
  | HtmlState.squote => c = '\''
  | HtmlState.dquote => c = '"'

/-- State of the tokeniser after a piece of text. -/
def html_state : HtmlState → CStr → HtmlState
  | s, [] => s
  | s, c :: cs => html_state (html_next s c) cs

/-- The markup of a page: its tags in order, with running text and the
contents of quoted attribute values left out. -/
def html_scan : HtmlState → CStr → CStr
  | _, [] => []
  | s, c :: cs =>
    if html_keep s c then c :: html_scan (html_next s c) cs
    else html_scan (html_next s c) cs

/-! ## The handshake request -/

/-- Modelled from the spec: the body of `pk_connect_ai`, which writes the
request, is not among the sources.  One `PK_HANDSHAKE_KITE` line per kite, in
order. -/
def handshake_kite_lines : List CStr → Option CStr
  | [] => some []
  | k :: ks =>
    (sprintf PK_HANDSHAKE_KITE [k]).bind fun line =>
      (handshake_kite_lines ks).bind fun rest => some (line ++ rest)

/-- Modelled from the spec: the body of `pk_connect_ai`, which writes the
request, is not among the sources.  The request is `PK_HANDSHAKE_CONNECT`,
`PK_HANDSHAKE_FEATURES`, the `PK_HANDSHAKE_SESSION` line when a session id is
given, one `PK_HANDSHAKE_KITE` line per kite in order, and
`PK_HANDSHAKE_END`. -/
def handshake_request (android : Bool) (PK_VERSION : CStr) (session : Option CStr)
    (kites : List CStr) : Option CStr :=
  (match session with
   | none => some []
   | some id => sprintf PK_HANDSHAKE_SESSION [id]).bind fun replace =>
    (handshake_kite_lines kites).bind fun lines =>
      some (PK_HANDSHAKE_CONNECT ++ (PK_HANDSHAKE_FEATURES android PK_VERSION ++ (replace ++
        (lines ++ PK_HANDSHAKE_END))))

/-- The lines a handshake request is made of, without their CRLF: the request
line, the feature header (two lines under `ANDROID`), the replace-session
header when a session id is given, and one kite header per kite. -/
def handshake_lines (android : Bool) (PK_VERSION : CStr) (session : Option CStr)
    (kites : List CStr) : List CStr :=
  "CONNECT PageKite:1 HTTP/1.0".toList ::
    ((if android then ["X-PageKite-Features: Mobile".toList] else []) ++
      ("X-PageKite-Version: ".toList ++ PK_VERSION) ::
        ((match session with
          | none => []
          | some id => ["X-PageKite-Replace: ".toList ++ id]) ++
          kites.map fun k => "X-PageKite: ".toList ++ k))

/-- Cut a text into its CRLF-terminated lines; the second component is what
follows the last CRLF. -/
def split_crlf : CStr → List CStr × CStr
  | [] => ([], [])
  | [c] => ([], [c])
  | c :: d :: cs =>
    if c = '\r' ∧ d = '\n' then ([] :: (split_crlf cs).1, (split_crlf cs).2)
    else
      match (split_crlf (d :: cs)).1 with
      | [] => ([], c :: (split_crlf (d :: cs)).2)
      | l :: ls => ((c :: l) :: ls, (split_crlf (d :: cs)).2)

/-! ## Frame codec -/

/-- Digits of `n` in the given radix, most significant first, in front of `acc`;
a fuel of `n + 1` is enough for every radix from 2 on. -/
def length_digits (radix : Nat) : Nat → Nat → CStr → CStr
  | 0, _, acc => acc
  | fuel + 1, n, acc =>
    if n / radix = 0 then Nat.digitChar (n % radix) :: acc
    else length_digits radix fuel (n / radix) (Nat.digitChar (n % radix) :: acc)

/-- Number of digits of `n` in the given radix. -/
def length_digit_count (radix : Nat) : Nat → Nat → Nat
  | 0, _ => 0
  | fuel + 1, n =>
    if n / radix = 0 then 1 else length_digit_count radix fuel (n / radix) + 1

/-- Modelled from the spec: the body of `pk_format_frame` is not among the
sources.  A frame is `<length><delimiter><header_line><blank-line><data>`; the
length covers the header region (header line and blank line) plus the payload.
The spec leaves the radix of the length open (hex or decimal), so it is a
parameter; the delimiter is the CRLF shown in the header comment on
`PROTO_OVERHEAD_PER_KB`. -/
def pk_format_frame (radix : Nat) (header_line data : CStr) : CStr :=
  length_digits radix (header_line.length + 2 + data.length + 1)
      (header_line.length + 2 + data.length) [] ++
    "\r\n".toList ++ header_line ++ "\r\n".toList ++ data

/-- Modelled from the spec: the body of `pk_format_reply` is not among the
sources.  A reply is the frame whose only header is the stream id. -/
def pk_format_reply (radix : Nat) (sid data : CStr) : CStr :=
  pk_format_frame radix ("SID: ".toList ++ sid ++ "\r\n".toList) data

/-- Modelled from the spec: the body of `pk_reply_overhead` is not among the
sources.  The size of the reply for the stream id and a payload of `n` bytes,
computed without formatting it: the digits of the length, the delimiter, the
`SID` header line, the blank line and the payload. -/
def pk_reply_overhead (radix : Nat) (sid : CStr) (n : Nat) : Nat :=
  length_digit_count radix (5 + sid.length + 2 + 2 + n + 1) (5 + sid.length + 2 + 2 + n) +
    2 + (5 + sid.length + 2) + 2 + n

/-! ## Chunk headers -/

/-- Outcome of a failed parse. -/
inductive PkParseError
  | syntaxError
  deriving DecidableEq, Repr

/-- The header list of `struct pk_chunk`: `header_count` and `headers`.  The
typed views onto recognised headers (`sid`, `eof`, ...) and the data span play
no part in the header count and are left out. -/
structure pk_chunk where
  header_count : Nat
  headers : List CStr
  deriving DecidableEq, Repr

/-- Modelled from the spec: the body of `pk_parser_parse` is not among the
sources.  One header line is stored in the next free slot of `headers`; a
line that finds all `PK_MAX_CHUNK_HEADERS` slots taken is a syntax error. -/
def pk_chunk_add_header (chunk : pk_chunk) (line : CStr) : Except PkParseError pk_chunk :=
  if chunk.header_count < PK_MAX_CHUNK_HEADERS then
    Except.ok ⟨chunk.header_count + 1, chunk.headers ++ [line]⟩
  else Except.error PkParseError.syntaxError

/-- Modelled from the spec: the body of `pk_parser_parse` is not among the
sources.  The header lines of a completed frame, in order, go into a fresh
chunk. -/
def pk_parse_header_lines : pk_chunk → List CStr → Except PkParseError pk_chunk
  | chunk, [] => Except.ok chunk
  | chunk, line :: rest =>
    match pk_chunk_add_header chunk line with
    | Except.ok next => pk_parse_header_lines next rest
    | Except.error e => Except.error e

/-- Modelled from the spec: the body of `pk_parser_parse` is not among the
sources.  The header lines of a frame: the CRLF-terminated lines of its header
region, up to the blank line that ends it. -/
def pk_header_lines (region : CStr) : List CStr :=
  (split_crlf region).1.takeWhile fun l => l ≠ []

/-- Modelled from the spec: the body of `pk_parser_parse` is not among the
sources.  The header lines of a completed frame are stored in a fresh chunk. -/
def pk_parse_chunk_header (region : CStr) : Except PkParseError pk_chunk :=
  pk_parse_header_lines ⟨0, []⟩ (pk_header_lines region)

/-! ## Lemmas on the format interpreter -/

theorem fmt_run_append (f : Fmt) (a b : CStr) :
    fmt_run f (a ++ b) = (fmt_run f a).bind fun g => fmt_run g b := by
  induction a generalizing f with
  | nil => simp [fmt_run]
  | cons c cs ih =>
    simp only [List.cons_append, fmt_run]
    cases h : fmt_step f c with
    | none => simp
    | some g => simp [ih]

theorem fmt_run_seq {f g : Fmt} {a : CStr} (b : CStr) (h : fmt_run f a = some g) :
    fmt_run f (a ++ b) = fmt_run g b := by
  rw [fmt_run_append, h, Option.some_bind]

theorem fmt_run_fail {f : Fmt} {a : CStr} (b : CStr) (h : fmt_run f a = none) :
    fmt_run f (a ++ b) = none := by
  rw [fmt_run_append, h, Option.none_bind]

theorem fmt_run_lit (args : List CStr) (out lit : CStr) (h : '%' ∉ lit) :
    fmt_run ⟨FmtState.text, args, out⟩ lit = some ⟨FmtState.text, args, out ++ lit⟩ := by
  induction lit generalizing out with
  | nil => simp [fmt_run]
  | cons c cs ih =>
    have hc : c ≠ '%' := fun e => h (by simp [e])
    have hcs : '%' ∉ cs := fun e => h (by simp [e])
    simp [fmt_run, fmt_step, hc, ih _ hcs]

theorem fmt_run_s (a : CStr) (rest : List CStr) (out : CStr) :
    fmt_run ⟨FmtState.text, a :: rest, out⟩ convS =
      some ⟨FmtState.text, rest, out ++ a⟩ := by
  simp [convS, convS3, convS8, convS64, fmt_run, fmt_step]

theorem fmt_run_s3 (a : CStr) (rest : List CStr) (out : CStr) :
    fmt_run ⟨FmtState.text, a :: rest, out⟩ convS3 =
      some ⟨FmtState.text, rest, out ++ a.take 3⟩ := by
  simp [convS, convS3, convS8, convS64, fmt_run, fmt_step]

theorem fmt_run_s8 (a : CStr) (rest : List CStr) (out : CStr) :
    fmt_run ⟨FmtState.text, a :: rest, out⟩ convS8 =
      some ⟨FmtState.text, rest, out ++ a.take 8⟩ := by
  simp [convS, convS3, convS8, convS64, fmt_run, fmt_step]

theorem fmt_run_s64 (a : CStr) (rest : List CStr) (out : CStr) :
    fmt_run ⟨FmtState.text, a :: rest, out⟩ convS64 =
      some ⟨FmtState.text, rest, out ++ a.take 64⟩ := by
  simp [convS, convS3, convS8, convS64, fmt_run, fmt_step]

theorem fmt_run_s_nil (out : CStr) :
    fmt_run ⟨FmtState.text, [], out⟩ convS = none := by
  simp [convS, convS3, convS8, convS64, fmt_run, fmt_step]

theorem fmt_run_s3_nil (out : CStr) :
    fmt_run ⟨FmtState.text, [], out⟩ convS3 = none := by
  simp [convS, convS3, convS8, convS64, fmt_run, fmt_step]

theorem fmt_run_s8_nil (out : CStr) :
    fmt_run ⟨FmtState.text, [], out⟩ convS8 = none := by
  simp [convS, convS3, convS8, convS64, fmt_run, fmt_step]

theorem fmt_run_s64_nil (out : CStr) :
    fmt_run ⟨FmtState.text, [], out⟩ convS64 = none := by
  simp [convS, convS3, convS8, convS64, fmt_run, fmt_step]

theorem fmt_step_spec (f g : Fmt) (c : Char) (h : fmt_step f c = some g) :
    (g.args.length < f.args.length ∧ ∃ x, g.out = f.out ++ x) ∨
    (g.args = f.args ∧ ∃ x, g.out = f.out ++ x ∧ x.length ≤ 1 ∧ ∀ d ∈ x, d = c) := by
  obtain ⟨st, args, out⟩ := f
  cases st with
  | text =>
    by_cases hc : c = '%'
    · simp [fmt_step, hc] at h
      subst h
      exact Or.inr ⟨rfl, [], by simp⟩
    · simp [fmt_step, hc] at h
      subst h
      exact Or.inr ⟨rfl, [c], by simp⟩
  | percent =>
    by_cases hc : c = '%'
    · simp [fmt_step, hc] at h
      subst h
      exact Or.inr ⟨rfl, ['%'], by simp [hc]⟩
    · by_cases hs : c = 's'
      · cases args with
        | nil => simp [fmt_step, hs] at h
        | cons a rest =>
          simp [fmt_step, hs] at h
          subst h
          exact Or.inl ⟨by simp, a, rfl⟩
      · by_cases hd : c = '.'
        · simp [fmt_step, hd] at h
          subst h
          exact Or.inr ⟨rfl, [], by simp⟩
        · simp [fmt_step, hc, hs, hd] at h
  | precision n =>
    by_cases hc : c.isDigit = true
    · simp [fmt_step, hc] at h
      subst h
      exact Or.inr ⟨rfl, [], by simp⟩
    · by_cases hs : c = 's'
      · cases args with
        | nil => simp [fmt_step, hs] at h
        | cons a rest =>
          simp [fmt_step, hs] at h
          subst h
          exact Or.inl ⟨by simp, a.take n, rfl⟩
      · simp [fmt_step, hc, hs] at h

/-- Running any piece of a format string either consumes an argument or, if it
consumes none, only appends characters of that piece to the output. -/
theorem fmt_run_spec (v : CStr) (f g : Fmt) (h : fmt_run f v = some g) :
    (g.args.length < f.args.length ∧ ∃ x, g.out = f.out ++ x) ∨
    (g.args = f.args ∧ ∃ w, g.out = f.out ++ w ∧ w.length ≤ v.length ∧ ∀ d ∈ w, d ∈ v) := by
  induction v generalizing f with
  | nil =>
    simp [fmt_run] at h
    subst h
    exact Or.inr ⟨rfl, [], by simp⟩
  | cons c cs ih =>
    simp only [fmt_run] at h
    cases hs : fmt_step f c with
    | none => simp [hs] at h
    | some m =>
      simp [hs] at h
      rcases fmt_step_spec f m c hs with ⟨h1, x, hx⟩ | ⟨h1, x, hx, hl, hm⟩
      · rcases ih m h with ⟨h2, y, hy⟩ | ⟨h2, w, hw, _, _⟩
        · exact Or.inl ⟨by omega, x ++ y, by simp [hy, hx]⟩
        · exact Or.inl ⟨by rw [h2]; exact h1, x ++ w, by simp [hw, hx]⟩
      · rcases ih m h with ⟨h2, y, hy⟩ | ⟨h2, w, hw, hwl, hwm⟩
        · exact Or.inl ⟨by rw [← h1]; exact h2, x ++ y, by simp [hy, hx]⟩
        · refine Or.inr ⟨by rw [h2, h1], x ++ w, by simp [hw, hx], ?_, ?_⟩
          · simp only [List.length_append, List.length_cons]
            omega
          · intro d hd
            rcases List.mem_append.mp hd with hd | hd
            · simp [hm d hd]
            · simp [hwm d hd]

theorem fmt_run_out_extends (v : CStr) (f g : Fmt) (h : fmt_run f v = some g) :
    ∃ x, g.out = f.out ++ x := by
  rcases fmt_run_spec v f g h with ⟨_, x, hx⟩ | ⟨_, w, hw, _, _⟩
  · exact ⟨x, hx⟩
  · exact ⟨w, hw⟩


/-! ## Running the reject formats -/

set_option maxRecDepth 100000 in
theorem PK_REJECT_FMT_eq (v : CStr) :
    PK_REJECT_FMT v =
      rejHead ++ (convS ++ (rejSorry ++ (convS3 ++ (rejSlash ++ (v ++ rejTailFmt))))) := by
  simp only [PK_REJECT_FMT, rejTailFmt, List.append_assoc]
  rfl

set_option maxRecDepth 100000 in
theorem PK_REJECT_PRE_PAGEKITE_eq (v : CStr) :
    PK_REJECT_PRE_PAGEKITE v = preHead ++ (v ++ preTailFmt) := by
  simp only [PK_REJECT_PRE_PAGEKITE, preTailFmt, List.append_assoc]
  rfl


theorem rejHead_lit : '%' ∉ rejHead := by decide
theorem rejSorry_lit : '%' ∉ rejSorry := by decide
theorem rejSlash_lit : '%' ∉ rejSlash := by decide
theorem rejThe_lit : '%' ∉ rejThe := by decide
theorem rejFor_lit : '%' ∉ rejFor := by decide
theorem rejLater_lit : '%' ∉ rejLater := by decide
theorem rejEnd_lit : '%' ∉ rejEnd := by decide
theorem preHead_lit : '%' ∉ preHead := by decide
theorem preWhere_lit : '%' ∉ preWhere := by decide
theorem preProto_lit : '%' ∉ preProto := by decide
theorem preDomain_lit : '%' ∉ preDomain := by decide
theorem preEnd_lit : '%' ∉ preEnd := by decide


/-- A conversion specification cannot be continued by a character that is
neither `%`, `s`, `.` nor a digit. -/
theorem fmt_run_stuck (st : FmtState) (args : List CStr) (out : CStr) (c : Char) (cs : CStr)
    (hst : st ≠ FmtState.text) (h1 : c ≠ '%') (h2 : c ≠ 's') (h3 : c ≠ '.')
    (h4 : c.isDigit = false) : fmt_run ⟨st, args, out⟩ (c :: cs) = none := by
  cases st with
  | text => exact absurd rfl hst
  | percent => simp [fmt_run, fmt_step, h1, h2, h3]
  | precision n => simp [fmt_run, fmt_step, h2, h4]

theorem rejTailFmt_cons : ∃ cs, rejTailFmt = ')' :: cs := ⟨_, rfl⟩

theorem preTailFmt_cons : ∃ cs, preTailFmt = '&' :: cs := ⟨_, rfl⟩

/-- The text after `PK_VERSION` in `PK_REJECT_FMT` can only be run from the
`text` state, and takes three arguments. -/
theorem rejTailFmt_run (g h : Fmt) (hr : fmt_run g rejTailFmt = some h) :
    g.st = FmtState.text ∧ ∃ p d post rest, g.args = p :: d :: post :: rest ∧
      h = ⟨FmtState.text, rest,
        g.out ++ rejThe ++ p.take 8 ++ rejFor ++ d.take 64 ++ rejLater ++ post ++ rejEnd⟩ := by
  obtain ⟨st, args, out⟩ := g
  cases st with
  | percent =>
    obtain ⟨cs, hcs⟩ := rejTailFmt_cons
    rw [hcs, fmt_run_stuck _ _ _ _ _ (by decide) (by decide) (by decide) (by decide)
      (by decide)] at hr
    cases hr
  | precision n =>
    obtain ⟨cs, hcs⟩ := rejTailFmt_cons
    rw [hcs, fmt_run_stuck _ _ _ _ _ (by simp) (by decide) (by decide) (by decide)
      (by decide)] at hr
    cases hr
  | text =>
    refine ⟨rfl, ?_⟩
    unfold rejTailFmt at hr
    rw [fmt_run_seq _ (fmt_run_lit _ _ _ rejThe_lit)] at hr
    rcases args with _ | ⟨p, _ | ⟨d, _ | ⟨post, rest⟩⟩⟩
    · rw [fmt_run_fail _ (fmt_run_s8_nil _)] at hr
      cases hr
    · rw [fmt_run_seq _ (fmt_run_s8 _ _ _), fmt_run_seq _ (fmt_run_lit _ _ _ rejFor_lit),
        fmt_run_fail _ (fmt_run_s64_nil _)] at hr
      cases hr
    · rw [fmt_run_seq _ (fmt_run_s8 _ _ _), fmt_run_seq _ (fmt_run_lit _ _ _ rejFor_lit),
        fmt_run_seq _ (fmt_run_s64 _ _ _), fmt_run_seq _ (fmt_run_lit _ _ _ rejLater_lit),
        fmt_run_fail _ (fmt_run_s_nil _)] at hr
      cases hr
    · rw [fmt_run_seq _ (fmt_run_s8 _ _ _), fmt_run_seq _ (fmt_run_lit _ _ _ rejFor_lit),
        fmt_run_seq _ (fmt_run_s64 _ _ _), fmt_run_seq _ (fmt_run_lit _ _ _ rejLater_lit),
        fmt_run_seq _ (fmt_run_s _ _ _), fmt_run_lit _ _ _ rejEnd_lit] at hr
      exact ⟨p, d, post, rest, rfl, (Option.some.inj hr).symm⟩

theorem preTailFmt_run (g h : Fmt) (hr : fmt_run g preTailFmt = some h) :
    g.st = FmtState.text ∧ ∃ r p d rest, g.args = r :: p :: d :: rest ∧
      h = ⟨FmtState.text, rest,
        g.out ++ preWhere ++ r.take 3 ++ preProto ++ p.take 8 ++ preDomain ++ d.take 64 ++
          preEnd⟩ := by
  obtain ⟨st, args, out⟩ := g
  cases st with
  | percent =>
    obtain ⟨cs, hcs⟩ := preTailFmt_cons
    rw [hcs, fmt_run_stuck _ _ _ _ _ (by decide) (by decide) (by decide) (by decide)
      (by decide)] at hr
    cases hr
  | precision n =>
    obtain ⟨cs, hcs⟩ := preTailFmt_cons
    rw [hcs, fmt_run_stuck _ _ _ _ _ (by simp) (by decide) (by decide) (by decide)
      (by decide)] at hr
    cases hr
  | text =>
    refine ⟨rfl, ?_⟩
    unfold preTailFmt at hr
    rw [fmt_run_seq _ (fmt_run_lit _ _ _ preWhere_lit)] at hr
    rcases args with _ | ⟨r, _ | ⟨p, _ | ⟨d, rest⟩⟩⟩
    · rw [fmt_run_fail _ (fmt_run_s3_nil _)] at hr
      cases hr
    · rw [fmt_run_seq _ (fmt_run_s3 _ _ _), fmt_run_seq _ (fmt_run_lit _ _ _ preProto_lit),
        fmt_run_fail _ (fmt_run_s8_nil _)] at hr
      cases hr
    · rw [fmt_run_seq _ (fmt_run_s3 _ _ _), fmt_run_seq _ (fmt_run_lit _ _ _ preProto_lit),
        fmt_run_seq _ (fmt_run_s8 _ _ _), fmt_run_seq _ (fmt_run_lit _ _ _ preDomain_lit),
        fmt_run_fail _ (fmt_run_s64_nil _)] at hr
      cases hr
    · rw [fmt_run_seq _ (fmt_run_s3 _ _ _), fmt_run_seq _ (fmt_run_lit _ _ _ preProto_lit),
        fmt_run_seq _ (fmt_run_s8 _ _ _), fmt_run_seq _ (fmt_run_lit _ _ _ preDomain_lit),
        fmt_run_seq _ (fmt_run_s64 _ _ _), fmt_run_lit _ _ _ preEnd_lit] at hr
      exact ⟨r, p, d, rest, rfl, (Option.some.inj hr).symm⟩

/-- Shape of every page `PK_REJECT_FMT` can produce from five arguments. -/
theorem reject_fmt_shape (v frag_pre reason proto domain frag_post out : CStr)
    (h : sprintf (PK_REJECT_FMT v) [frag_pre, reason, proto, domain, frag_post] = some out) :
    ∃ w, w.length ≤ v.length ∧ (∀ c ∈ w, c ∈ v) ∧
      out = reject_text w frag_pre reason proto domain frag_post := by
  unfold sprintf at h
  rw [PK_REJECT_FMT_eq, fmt_run_seq _ (fmt_run_lit _ _ _ rejHead_lit),
    fmt_run_seq _ (fmt_run_s _ _ _), fmt_run_seq _ (fmt_run_lit _ _ _ rejSorry_lit),
    fmt_run_seq _ (fmt_run_s3 _ _ _), fmt_run_seq _ (fmt_run_lit _ _ _ rejSlash_lit),
    fmt_run_append] at h
  cases hv : fmt_run ⟨FmtState.text, [proto, domain, frag_post],
      [] ++ rejHead ++ frag_pre ++ rejSorry ++ List.take 3 reason ++ rejSlash⟩ v with
  | none =>
    rw [hv] at h
    cases h
  | some g =>
    rw [hv, Option.some_bind] at h
    cases ht : fmt_run g rejTailFmt with
    | none =>
      rw [ht] at h
      cases h
    | some e =>
      rw [ht, Option.some_bind] at h
      obtain ⟨_, p, d, post, rest, hargs, he⟩ := rejTailFmt_run g e ht
      rcases fmt_run_spec v _ g hv with ⟨hlt, _⟩ | ⟨hargs2, w, hw, hwl, hwm⟩
      · rw [hargs] at hlt
        simp only [List.length_cons, List.length_nil] at hlt
        omega
      · rw [hargs] at hargs2
        simp only [List.cons.injEq] at hargs2
        obtain ⟨rfl, rfl, rfl, rfl⟩ := hargs2
        refine ⟨w, hwl, hwm, ?_⟩
        subst he
        rw [if_pos rfl] at h
        rw [← Option.some.inj h, hw]
        simp only [reject_text, List.nil_append, List.append_assoc]

theorem reject_pre_shape (v reason proto domain out : CStr)
    (h : sprintf (PK_REJECT_PRE_PAGEKITE v) [reason, proto, domain] = some out) :
    ∃ w, w.length ≤ v.length ∧ (∀ c ∈ w, c ∈ v) ∧
      out = reject_pre_text w reason proto domain := by
  unfold sprintf at h
  rw [PK_REJECT_PRE_PAGEKITE_eq, fmt_run_seq _ (fmt_run_lit _ _ _ preHead_lit),
    fmt_run_append] at h
  cases hv : fmt_run ⟨FmtState.text, [reason, proto, domain], [] ++ preHead⟩ v with
  | none =>
    rw [hv] at h
    cases h
  | some g =>
    rw [hv, Option.some_bind] at h
    cases ht : fmt_run g preTailFmt with
    | none =>
      rw [ht] at h
      cases h
    | some e =>
      rw [ht, Option.some_bind] at h
      obtain ⟨_, r, p, d, rest, hargs, he⟩ := preTailFmt_run g e ht
      rcases fmt_run_spec v _ g hv with ⟨hlt, _⟩ | ⟨hargs2, w, hw, hwl, hwm⟩
      · rw [hargs] at hlt
        simp only [List.length_cons, List.length_nil] at hlt
        omega
      · rw [hargs] at hargs2
        simp only [List.cons.injEq] at hargs2
        obtain ⟨rfl, rfl, rfl, rfl⟩ := hargs2
        refine ⟨w, hwl, hwm, ?_⟩
        subst he
        rw [if_pos rfl] at h
        rw [← Option.some.inj h, hw]
        simp only [reject_pre_text, List.nil_append, List.append_assoc]

/-- With a `PK_VERSION` free of `%` the page is always produced. -/
theorem reject_fmt_eval (v frag_pre reason proto domain frag_post : CStr) (hv : '%' ∉ v) :
    sprintf (PK_REJECT_FMT v) [frag_pre, reason, proto, domain, frag_post] =
      some (reject_text v frag_pre reason proto domain frag_post) := by
  unfold sprintf
  rw [PK_REJECT_FMT_eq, fmt_run_seq _ (fmt_run_lit _ _ _ rejHead_lit),
    fmt_run_seq _ (fmt_run_s _ _ _), fmt_run_seq _ (fmt_run_lit _ _ _ rejSorry_lit),
    fmt_run_seq _ (fmt_run_s3 _ _ _), fmt_run_seq _ (fmt_run_lit _ _ _ rejSlash_lit),
    fmt_run_seq _ (fmt_run_lit _ _ _ hv)]
  unfold rejTailFmt
  rw [fmt_run_seq _ (fmt_run_lit _ _ _ rejThe_lit),
    fmt_run_seq _ (fmt_run_s8 _ _ _), fmt_run_seq _ (fmt_run_lit _ _ _ rejFor_lit),
    fmt_run_seq _ (fmt_run_s64 _ _ _), fmt_run_seq _ (fmt_run_lit _ _ _ rejLater_lit),
    fmt_run_seq _ (fmt_run_s _ _ _), fmt_run_lit _ _ _ rejEnd_lit, Option.some_bind,
    if_pos rfl]
  simp only [reject_text, List.nil_append, List.append_assoc]

theorem reject_pre_eval (v reason proto domain : CStr) (hv : '%' ∉ v) :
    sprintf (PK_REJECT_PRE_PAGEKITE v) [reason, proto, domain] =
      some (reject_pre_text v reason proto domain) := by
  unfold sprintf
  rw [PK_REJECT_PRE_PAGEKITE_eq, fmt_run_seq _ (fmt_run_lit _ _ _ preHead_lit),
    fmt_run_seq _ (fmt_run_lit _ _ _ hv)]
  unfold preTailFmt
  rw [fmt_run_seq _ (fmt_run_lit _ _ _ preWhere_lit),
    fmt_run_seq _ (fmt_run_s3 _ _ _), fmt_run_seq _ (fmt_run_lit _ _ _ preProto_lit),
    fmt_run_seq _ (fmt_run_s8 _ _ _), fmt_run_seq _ (fmt_run_lit _ _ _ preDomain_lit),
    fmt_run_seq _ (fmt_run_s64 _ _ _), fmt_run_lit _ _ _ preEnd_lit, Option.some_bind,
    if_pos rfl]
  simp only [reject_pre_text, List.nil_append, List.append_assoc]

set_option maxRecDepth 100000 in
theorem reject_text_length (w frag_pre reason proto domain frag_post : CStr) :
    (reject_text w frag_pre reason proto domain frag_post).length =
      308 + frag_pre.length + (reason.take 3).length + w.length + (proto.take 8).length +
        (domain.take 64).length + frag_post.length := by
  have h1 : rejHead.length = 148 := by decide
  have h2 : rejSorry.length = 12 := by decide
  have h3 : rejSlash.length = 1 := by decide
  have h4 : rejThe.length = 13 := by decide
  have h5 : rejFor.length = 59 := by decide
  have h6 : rejLater.length = 68 := by decide
  have h7 : rejEnd.length = 7 := by decide
  simp only [reject_text, List.length_append, h1, h2, h3, h4, h5, h6, h7]
  omega

set_option maxRecDepth 100000 in
theorem reject_pre_text_length (w reason proto domain : CStr) :
    (reject_pre_text w reason proto domain).length =
      112 + w.length + (reason.take 3).length + (proto.take 8).length +
        (domain.take 64).length := by
  have h1 : preHead.length = 78 := by decide
  have h2 : preWhere.length = 7 := by decide
  have h3 : preProto.length = 7 := by decide
  have h4 : preDomain.length = 8 := by decide
  have h5 : preEnd.length = 12 := by decide
  simp only [reject_pre_text, List.length_append, h1, h2, h3, h4, h5]
  omega

/-- Length of what `PK_REJECT_FMT` produces, in terms of the two fragments. -/
theorem reject_fmt_length_le (v frag_pre reason proto domain frag_post out : CStr)
    (h : sprintf (PK_REJECT_FMT v) [frag_pre, reason, proto, domain, frag_post] = some out) :
    out.length ≤ 308 + 3 + 8 + 64 + v.length + frag_pre.length + frag_post.length := by
  obtain ⟨w, hw, _, rfl⟩ := reject_fmt_shape v frag_pre reason proto domain frag_post out h
  rw [reject_text_length]
  have h3 := List.length_take_le 3 reason
  have h8 := List.length_take_le 8 proto
  have h64 := List.length_take_le 64 domain
  omega

theorem reject_pre_length_le (v reason proto domain out : CStr)
    (h : sprintf (PK_REJECT_PRE_PAGEKITE v) [reason, proto, domain] = some out) :
    out.length ≤ 112 + 3 + 8 + 64 + v.length := by
  obtain ⟨w, hw, _, rfl⟩ := reject_pre_shape v reason proto domain out h
  rw [reject_pre_text_length]
  have h3 := List.length_take_le 3 reason
  have h8 := List.length_take_le 8 proto
  have h64 := List.length_take_le 64 domain
  omega

/-! ## Lemmas on the markup tokeniser -/

theorem html_state_append (s : HtmlState) (a b : CStr) :
    html_state s (a ++ b) = html_state (html_state s a) b := by
  induction a generalizing s with
  | nil => rfl
  | cons c cs ih =>
    show html_state (html_next s c) (cs ++ b) = html_state (html_state (html_next s c) cs) b
    exact ih _

theorem html_scan_append (s : HtmlState) (a b : CStr) :
    html_scan s (a ++ b) = html_scan s a ++ html_scan (html_state s a) b := by
  induction a generalizing s with
  | nil => rfl
  | cons c cs ih =>
    show (if html_keep s c then c :: html_scan (html_next s c) (cs ++ b)
        else html_scan (html_next s c) (cs ++ b)) =
      (if html_keep s c then c :: html_scan (html_next s c) cs
        else html_scan (html_next s c) cs) ++ html_scan (html_state (html_next s c) cs) b
    rw [ih]
    split <;> rfl

/-- Running text without `<` neither opens a tag nor adds markup. -/
theorem html_text_inert (x : CStr) (h : '<' ∉ x) :
    html_state HtmlState.text x = HtmlState.text ∧ html_scan HtmlState.text x = [] := by
  induction x with
  | nil => exact ⟨rfl, rfl⟩
  | cons c cs ih =>
    have hc : c ≠ '<' := fun e => h (by simp [e])
    have hcs : '<' ∉ cs := fun e => h (by simp [e])
    simp only [html_state, html_scan, html_next, html_keep, hc, if_false, decide_False,
      Bool.false_eq_true]
    exact ih hcs

/-- Text without an apostrophe stays inside a single-quoted attribute value. -/
theorem html_squote_inert (x : CStr) (h : '\'' ∉ x) :
    html_state HtmlState.squote x = HtmlState.squote ∧ html_scan HtmlState.squote x = [] := by
  induction x with
  | nil => exact ⟨rfl, rfl⟩
  | cons c cs ih =>
    have hc : c ≠ '\'' := fun e => h (by simp [e])
    have hcs : '\'' ∉ cs := fun e => h (by simp [e])
    simp only [html_state, html_scan, html_next, html_keep, hc, if_false, decide_False,
      Bool.false_eq_true]
    exact ih hcs

theorem mem_take_of_not_mem (c : Char) (n : Nat) (x : CStr) (h : c ∉ x) : c ∉ x.take n :=
  fun hm => h (List.mem_of_mem_take hm)

set_option maxRecDepth 100000 in
/-- Markup of the leading fragment: that of its literal text, whatever the
strings inside the quoted `src` value, as long as they hold no apostrophe. -/
theorem reject_pre_text_markup (w reason proto domain : CStr) (hw : '\'' ∉ w)
    (hr : '\'' ∉ reason) (hp : '\'' ∉ proto) (hd : '\'' ∉ domain) :
    html_state HtmlState.text (reject_pre_text w reason proto domain) = HtmlState.text ∧
    html_scan HtmlState.text (reject_pre_text w reason proto domain) =
      html_scan HtmlState.text preHead ++ html_scan HtmlState.squote preEnd := by
  have h0 : html_state HtmlState.text preHead = HtmlState.squote := by decide
  have h1 := html_squote_inert w hw
  have h2 := html_squote_inert preWhere (by decide)
  have h3 := html_squote_inert _ (mem_take_of_not_mem _ 3 _ hr)
  have h4 := html_squote_inert preProto (by decide)
  have h5 := html_squote_inert _ (mem_take_of_not_mem _ 8 _ hp)
  have h6 := html_squote_inert preDomain (by decide)
  have h7 := html_squote_inert _ (mem_take_of_not_mem _ 64 _ hd)
  have h8 : html_state HtmlState.squote preEnd = HtmlState.text := by decide
  refine ⟨?_, ?_⟩
  · simp only [reject_pre_text, html_state_append, h0, h1.1, h2.1, h3.1, h4.1, h5.1, h6.1,
      h7.1, h8]
  · simp only [reject_pre_text, html_scan_append, html_state_append, h0, h1.1, h2.1, h3.1,
      h4.1, h5.1, h6.1, h7.1, h1.2, h2.2, h3.2, h4.2, h5.2, h6.2, h7.2, List.nil_append]

set_option maxRecDepth 100000 in
/-- Markup of the page: that of its literal text and of the two fragments,
whatever the strings in running text, as long as they hold no `<`. -/
theorem reject_text_markup (w frag_pre reason proto domain frag_post : CStr)
    (hw : '<' ∉ w) (hr : '<' ∉ reason) (hp : '<' ∉ proto) (hd : '<' ∉ domain)
    (hpre : html_state HtmlState.text frag_pre = HtmlState.text)
    (hpost : html_state HtmlState.text frag_post = HtmlState.text) :
    html_scan HtmlState.text (reject_text w frag_pre reason proto domain frag_post) =
      html_scan HtmlState.text rejHead ++ (html_scan HtmlState.text frag_pre ++
        (html_scan HtmlState.text rejSorry ++ (html_scan HtmlState.text rejThe ++
          (html_scan HtmlState.text rejFor ++ (html_scan HtmlState.text rejLater ++
            (html_scan HtmlState.text frag_post ++ html_scan HtmlState.text rejEnd)))))) := by
  have c1 : html_state HtmlState.text rejHead = HtmlState.text := by decide
  have c2 : html_state HtmlState.text rejSorry = HtmlState.text := by decide
  have c3 := html_text_inert rejSlash (by decide)
  have c4 : html_state HtmlState.text rejThe = HtmlState.text := by decide
  have c5 : html_state HtmlState.text rejFor = HtmlState.text := by decide
  have c6 : html_state HtmlState.text rejLater = HtmlState.text := by decide
  have i1 := html_text_inert w hw
  have i2 := html_text_inert _ (mem_take_of_not_mem _ 3 _ hr)
  have i3 := html_text_inert _ (mem_take_of_not_mem _ 8 _ hp)
  have i4 := html_text_inert _ (mem_take_of_not_mem _ 64 _ hd)
  simp only [reject_text, html_scan_append, html_state_append, c1, c2, c3.1, c4, c5, c6,
    i1.1, i2.1, i3.1, i4.1, hpre, hpost, c3.2, i1.2, i2.2, i3.2, i4.2, List.nil_append,
    List.append_assoc]

/-! ## Claims on the reject page -/

/-- C1: for every reason code, protocol tag and domain of any length, and every
`PK_VERSION` of at most 32 bytes, the reject page formatted from
`PK_REJECT_FMT` with these strings, its leading fragment empty or
`PK_REJECT_PRE_PAGEKITE` formatted with the same strings, its trailing fragment
empty or `PK_REJECT_POST_PAGEKITE`, is strictly shorter than
`PK_REJECT_MAXSIZE` = 1024 bytes; the page is produced whenever `PK_VERSION`
holds no `%`. -/
theorem reject_page_shorter_than_maxsize (v reason proto domain frag_pre frag_post : CStr)
    (hv : v.length ≤ 32)
    (hpre : frag_pre = [] ∨
      sprintf (PK_REJECT_PRE_PAGEKITE v) [reason, proto, domain] = some frag_pre)
    (hpost : frag_post = [] ∨ frag_post = PK_REJECT_POST_PAGEKITE) :
    ('%' ∉ v →
      (sprintf (PK_REJECT_PRE_PAGEKITE v) [reason, proto, domain]).isSome = true ∧
      (sprintf (PK_REJECT_FMT v) [frag_pre, reason, proto, domain, frag_post]).isSome = true) ∧
    ∀ page, sprintf (PK_REJECT_FMT v) [frag_pre, reason, proto, domain, frag_post] = some page →
      page.length < PK_REJECT_MAXSIZE := by
  refine ⟨fun h => ⟨?_, ?_⟩, ?_⟩
  · rw [reject_pre_eval _ _ _ _ h]
    rfl
  · rw [reject_fmt_eval _ _ _ _ _ _ h]
    rfl
  intro page hp
  have h2 := reject_fmt_length_le _ _ _ _ _ _ _ hp
  have hpost_len : frag_post.length ≤ 22 := by
    rcases hpost with rfl | rfl
    · simp
    · decide
  have hpre_len : frag_pre.length ≤ 187 + v.length := by
    rcases hpre with rfl | hpre
    · simp
    · exact reject_pre_length_le _ _ _ _ _ hpre
  simp only [PK_REJECT_MAXSIZE]
  omega

set_option maxRecDepth 100000 in
theorem reject_page_shorter_than_maxsize_witness :
    "0.91.171102C".toList.length ≤ 32 ∧
    sprintf (PK_REJECT_PRE_PAGEKITE "0.91.171102C".toList)
        ["BE".toList, "http".toList, "example.com".toList] =
      some (reject_pre_text "0.91.171102C".toList "BE".toList "http".toList
        "example.com".toList) ∧
    (sprintf (PK_REJECT_FMT "0.91.171102C".toList)
        [reject_pre_text "0.91.171102C".toList "BE".toList "http".toList "example.com".toList,
          "BE".toList, "http".toList, "example.com".toList, PK_REJECT_POST_PAGEKITE]).isSome =
      true ∧
    ∀ page, sprintf (PK_REJECT_FMT "0.91.171102C".toList)
        [reject_pre_text "0.91.171102C".toList "BE".toList "http".toList "example.com".toList,
          "BE".toList, "http".toList, "example.com".toList, PK_REJECT_POST_PAGEKITE] =
        some page → page.length < PK_REJECT_MAXSIZE :=
  have h := reject_page_shorter_than_maxsize "0.91.171102C".toList "BE".toList "http".toList
    "example.com".toList
    (reject_pre_text "0.91.171102C".toList "BE".toList "http".toList "example.com".toList)
    PK_REJECT_POST_PAGEKITE (by decide) (Or.inr (by decide)) (Or.inr rfl)
  ⟨by decide, by decide, (h.1 (by decide)).2, h.2⟩

/-- C2 (as stated, refuted): the first conversion of `PK_REJECT_FMT` is a bare
`%s`; a leading argument of 1024 bytes is copied whole and the output, 1344
bytes, exceeds `PK_REJECT_MAXSIZE`; no fixed maximum bounds the output over all
arguments. -/
theorem reject_fmt_not_bounded :
    (sprintf (PK_REJECT_FMT "0.91.171102C".toList)
        [List.replicate 1024 'A', [], [], [], []]).map List.length = some 1344 ∧
    PK_REJECT_MAXSIZE < 1344 ∧
    ¬ ∃ bound : Nat, ∀ frag_pre reason proto domain frag_post out,
      sprintf (PK_REJECT_FMT "0.91.171102C".toList)
        [frag_pre, reason, proto, domain, frag_post] = some out → out.length ≤ bound := by
  have hv : '%' ∉ "0.91.171102C".toList := by decide
  refine ⟨?_, by decide, ?_⟩
  · rw [reject_fmt_eval _ _ _ _ _ _ hv, Option.map_some', reject_text_length]
    simp only [List.length_replicate, List.take_nil, List.length_nil]
    rfl
  · rintro ⟨bound, hb⟩
    have h := hb (List.replicate (bound + 1) 'A') [] [] [] [] _
      (reject_fmt_eval _ _ _ _ _ _ hv)
    rw [reject_text_length] at h
    simp only [List.length_replicate] at h
    omega

/-- C2 (amended): the reason, protocol and domain conversions of `PK_REJECT_FMT`
carry the precisions 3, 8 and 64, the leading and trailing conversions are bare
`%s` and copy their arguments whole; so the output is the fixed text with the
three strings cut to 3, 8 and 64 bytes, and is at most
`383 + |PK_VERSION| + |leading| + |trailing|` bytes long.  The output is
produced whenever `PK_VERSION` holds no `%`. -/
theorem reject_fmt_fields_capped (v frag_pre reason proto domain frag_post : CStr) :
    ('%' ∉ v →
      sprintf (PK_REJECT_FMT v) [frag_pre, reason, proto, domain, frag_post] =
        some (reject_text v frag_pre reason proto domain frag_post)) ∧
    ∀ out, sprintf (PK_REJECT_FMT v) [frag_pre, reason, proto, domain, frag_post] = some out →
      (∃ w, w.length ≤ v.length ∧
        out = reject_text w frag_pre reason proto domain frag_post) ∧
      out.length ≤ 383 + v.length + frag_pre.length + frag_post.length := by
  refine ⟨reject_fmt_eval v frag_pre reason proto domain frag_post, ?_⟩
  intro out h
  refine ⟨?_, ?_⟩
  · obtain ⟨w, hw, _, he⟩ := reject_fmt_shape v frag_pre reason proto domain frag_post out h
    exact ⟨w, hw, he⟩
  · have := reject_fmt_length_le v frag_pre reason proto domain frag_post out h
    omega

theorem reject_fmt_fields_capped_witness :
    sprintf (PK_REJECT_FMT "0.91".toList)
        ["<x>".toList, "BExx".toList, "httpsssssss".toList, "example.com".toList, []] =
      some (reject_text "0.91".toList "<x>".toList "BExx".toList "httpsssssss".toList
        "example.com".toList []) ∧
    (reject_text "0.91".toList "<x>".toList "BExx".toList "httpsssssss".toList
        "example.com".toList []).length ≤ 383 + 4 + 3 + 0 := by
  have h := reject_fmt_fields_capped "0.91".toList "<x>".toList "BExx".toList
    "httpsssssss".toList "example.com".toList []
  exact ⟨h.1 (by decide), (h.2 _ (h.1 (by decide))).2⟩

/-- C10: whatever the arguments, a reject response formatted from `PK_REJECT_FMT`
begins with the 24 bytes of `PK_FRONTEND_PONG` followed by CRLF, so its first
24 bytes are those of a pong. -/
theorem reject_begins_with_pong (v : CStr) (args : List CStr) (out : CStr)
    (h : sprintf (PK_REJECT_FMT v) args = some out) :
    PK_FRONTEND_PONG.length = 24 ∧
    (PK_FRONTEND_PONG ++ "\r\n".toList) <+: out ∧
    out.take 24 = PK_FRONTEND_PONG := by
  have hlen : PK_FRONTEND_PONG.length = 24 := by decide
  have hhead : rejHead = PK_FRONTEND_PONG ++ ("\r\n".toList ++ rejHead.drop 26) := by decide
  unfold sprintf at h
  rw [PK_REJECT_FMT_eq, fmt_run_seq _ (fmt_run_lit _ _ _ rejHead_lit)] at h
  cases hg : fmt_run ⟨FmtState.text, args, [] ++ rejHead⟩
      (convS ++ (rejSorry ++ (convS3 ++ (rejSlash ++ (v ++ rejTailFmt))))) with
  | none =>
    rw [hg] at h
    cases h
  | some g =>
    rw [hg, Option.some_bind] at h
    obtain ⟨x, hx⟩ := fmt_run_out_extends _ _ g hg
    have hout : out = g.out := by
      by_cases hst : g.st = FmtState.text
      · rw [if_pos hst] at h
        exact (Option.some.inj h).symm
      · rw [if_neg hst] at h
        cases h
    have hshape : out = PK_FRONTEND_PONG ++ ("\r\n".toList ++ (rejHead.drop 26 ++ x)) := by
      rw [hout, hx, List.nil_append]
      conv_lhs => rw [hhead]
      simp only [List.append_assoc]
    refine ⟨hlen, ?_, ?_⟩
    · rw [hshape, ← List.append_assoc]
      exact List.prefix_append _ _
    · rw [hshape]
      exact List.take_left' hlen

set_option maxRecDepth 100000 in
theorem reject_begins_with_pong_witness :
    sprintf (PK_REJECT_FMT "0.91".toList) [[], "BE".toList, "http".toList, "a.b".toList, []] =
      some (reject_text "0.91".toList [] "BE".toList "http".toList "a.b".toList []) ∧
    (PK_FRONTEND_PONG.length = 24 ∧
     (PK_FRONTEND_PONG ++ "\r\n".toList) <+:
       reject_text "0.91".toList [] "BE".toList "http".toList "a.b".toList [] ∧
     (reject_text "0.91".toList [] "BE".toList "http".toList "a.b".toList []).take 24 =
       PK_FRONTEND_PONG) :=
  ⟨by decide, reject_begins_with_pong "0.91".toList
    [[], "BE".toList, "http".toList, "a.b".toList, []] _ (by decide)⟩

set_option maxRecDepth 100000 in
/-- C3 (as stated, refuted): a domain of `<i>` adds a tag to the page; and with
the leading and trailing fragments a domain of `'><i>` ends the quoted `src`
value of the leading fragment and adds a tag after it.  In both cases the
markup differs from that of the page formatted with empty strings. -/
theorem reject_page_markup_injected :
    (sprintf (PK_REJECT_FMT "0.91".toList) [[], [], [], "<i>".toList, []]).map
        (html_scan HtmlState.text) =
      some "<html><h1></h1><p><a href=''><i></i></a><b><i></b></p><p></p></html>".toList ∧
    (sprintf (PK_REJECT_FMT "0.91".toList) [[], [], [], [], []]).map
        (html_scan HtmlState.text) =
      some "<html><h1></h1><p><a href=''><i></i></a><b></b></p><p></p></html>".toList ∧
    sprintf (PK_REJECT_PRE_PAGEKITE "0.91".toList) [[], [], "'><i>".toList] =
      some ("<frameset cols='*'><frame target='_top' src='https://pagekite.net/offline/" ++
        "?&v=0.91&where=&proto=&domain='><i>'><noframes>").toList ∧
    (sprintf (PK_REJECT_FMT "0.91".toList)
        [("<frameset cols='*'><frame target='_top' src='https://pagekite.net/offline/" ++
          "?&v=0.91&where=&proto=&domain='><i>'><noframes>").toList,
          [], [], "'><i>".toList, PK_REJECT_POST_PAGEKITE]).map (html_scan HtmlState.text) =
      some ("<html><frameset cols=''><frame target='' src=''><i><noframes><h1></h1><p>" ++
        "<a href=''><i></i></a><b><i></b></p><p></p></noframes></frameset></html>").toList ∧
    sprintf (PK_REJECT_PRE_PAGEKITE "0.91".toList) [[], [], []] =
      some ("<frameset cols='*'><frame target='_top' src='https://pagekite.net/offline/" ++
        "?&v=0.91&where=&proto=&domain='><noframes>").toList ∧
    (sprintf (PK_REJECT_FMT "0.91".toList)
        [("<frameset cols='*'><frame target='_top' src='https://pagekite.net/offline/" ++
          "?&v=0.91&where=&proto=&domain='><noframes>").toList,
          [], [], [], PK_REJECT_POST_PAGEKITE]).map (html_scan HtmlState.text) =
      some ("<html><frameset cols=''><frame target='' src=''><noframes><h1></h1><p>" ++
        "<a href=''><i></i></a><b></b></p><p></p></noframes></frameset></html>").toList := by
  have hv : '%' ∉ "0.91".toList := by decide
  simp only [reject_pre_eval _ _ _ _ hv, reject_fmt_eval _ _ _ _ _ _ hv, Option.map_some']
  refine ⟨?_, ?_, ?_, ?_, ?_, ?_⟩ <;> decide

set_option maxRecDepth 100000 in
/-- C3 (amended): the reject page copies the reason code, the protocol tag and
the domain as they are, cut to 3, 8 and 64 bytes, without escaping; for strings
that hold neither `<` nor an apostrophe (and a `PK_VERSION` that holds neither
of them nor `%`) the page is produced and its markup, tag by tag with quoted
attribute values left out, is that of the page formatted with empty strings. -/
theorem reject_page_markup_kept (v reason proto domain frag_pre blank_pre frag_post : CStr)
    (hv : '%' ∉ v ∧ '<' ∉ v ∧ '\'' ∉ v) (hr : '<' ∉ reason ∧ '\'' ∉ reason)
    (hp : '<' ∉ proto ∧ '\'' ∉ proto) (hd : '<' ∉ domain ∧ '\'' ∉ domain)
    (hpre : (frag_pre = [] ∧ blank_pre = []) ∨
      (sprintf (PK_REJECT_PRE_PAGEKITE v) [reason, proto, domain] = some frag_pre ∧
        sprintf (PK_REJECT_PRE_PAGEKITE v) [[], [], []] = some blank_pre))
    (hpost : frag_post = [] ∨ frag_post = PK_REJECT_POST_PAGEKITE) :
    ∃ page blank,
      sprintf (PK_REJECT_FMT v) [frag_pre, reason, proto, domain, frag_post] = some page ∧
      sprintf (PK_REJECT_FMT v) [blank_pre, [], [], [], frag_post] = some blank ∧
      html_scan HtmlState.text page = html_scan HtmlState.text blank := by
  have hnil : ('<' : Char) ∉ ([] : CStr) := by simp
  have hnil2 : ('\'' : Char) ∉ ([] : CStr) := by simp
  have hpost_st : html_state HtmlState.text frag_post = HtmlState.text := by
    rcases hpost with rfl | rfl
    · rfl
    · decide
  have hpre_st : html_state HtmlState.text frag_pre = HtmlState.text ∧
      html_state HtmlState.text blank_pre = HtmlState.text ∧
      html_scan HtmlState.text frag_pre = html_scan HtmlState.text blank_pre := by
    rcases hpre with ⟨rfl, rfl⟩ | ⟨h1, h0⟩
    · exact ⟨rfl, rfl, rfl⟩
    · rw [reject_pre_eval _ _ _ _ hv.1] at h1 h0
      have e1 := Option.some.inj h1
      have e0 := Option.some.inj h0
      have m1 := reject_pre_text_markup v reason proto domain hv.2.2 hr.2 hp.2 hd.2
      have m0 := reject_pre_text_markup v [] [] [] hv.2.2 hnil2 hnil2 hnil2
      rw [← e1, ← e0]
      exact ⟨m1.1, m0.1, m1.2.trans m0.2.symm⟩
  refine ⟨_, _, reject_fmt_eval _ _ _ _ _ _ hv.1, reject_fmt_eval _ _ _ _ _ _ hv.1, ?_⟩
  rw [reject_text_markup v frag_pre _ _ _ _ hv.2.1 hr.1 hp.1 hd.1 hpre_st.1 hpost_st,
    reject_text_markup v blank_pre _ _ _ _ hv.2.1 hnil hnil hnil hpre_st.2.1 hpost_st,
    hpre_st.2.2]

set_option maxRecDepth 100000 in
theorem reject_page_markup_kept_witness :
    ∃ page blank,
      sprintf (PK_REJECT_FMT "0.91".toList)
        [reject_pre_text "0.91".toList "BE".toList "http".toList "example.com".toList,
          "BE".toList, "http".toList, "example.com".toList, PK_REJECT_POST_PAGEKITE] =
        some page ∧
      sprintf (PK_REJECT_FMT "0.91".toList)
        [reject_pre_text "0.91".toList [] [] [], [], [], [], PK_REJECT_POST_PAGEKITE] =
        some blank ∧
      html_scan HtmlState.text page = html_scan HtmlState.text blank :=
  reject_page_markup_kept "0.91".toList "BE".toList "http".toList "example.com".toList
    (reject_pre_text "0.91".toList "BE".toList "http".toList "example.com".toList)
    (reject_pre_text "0.91".toList [] [] []) PK_REJECT_POST_PAGEKITE
    (by decide) (by decide) (by decide) (by decide)
    (Or.inr ⟨by decide, by decide⟩) (Or.inr rfl)

/-! ## Flags and statuses -/

theorem or_and_self_left (f g : Nat) : (f ||| g) &&& f = f := by
  apply Nat.eq_of_testBit_eq
  intro i
  rw [Nat.testBit_and, Nat.testBit_or]
  cases f.testBit i <;> cases g.testBit i <;> rfl

/-- C6: `PK_EOF_READ` and `PK_EOF_WRITE` are non-zero and share no bit, `PK_EOF`
is their bitwise OR, and combining flag values by bitwise OR never clears a
bit that was set: `(f | g) & f = f`, for the four flag values and for every
other pair of values. -/
theorem eof_flags_only_grow :
    PK_EOF_READ ≠ 0 ∧ PK_EOF_WRITE ≠ 0 ∧ PK_EOF_READ &&& PK_EOF_WRITE = 0 ∧
    PK_EOF = PK_EOF_READ ||| PK_EOF_WRITE ∧
    (∀ f ∈ [0, PK_EOF_READ, PK_EOF_WRITE, PK_EOF],
      ∀ g ∈ [0, PK_EOF_READ, PK_EOF_WRITE, PK_EOF],
        (f ||| g) ∈ [0, PK_EOF_READ, PK_EOF_WRITE, PK_EOF]) ∧
    ∀ f g : Nat, (f ||| g) &&& f = f := by
  refine ⟨by decide, by decide, by decide, rfl, by decide, or_and_self_left⟩

/-- C9: the kite request statuses are pairwise distinct: `PK_KITE_UNKNOWN` is 0,
the value of a zeroed `status` field, and `PK_KITE_FLYING` and
`PK_KITE_REJECTED` are two different non-zero values. -/
theorem kite_statuses_distinct :
    PK_KITE_UNKNOWN = 0 ∧ PK_KITE_FLYING ≠ 0 ∧ PK_KITE_REJECTED ≠ 0 ∧
    PK_KITE_UNKNOWN ≠ PK_KITE_FLYING ∧ PK_KITE_UNKNOWN ≠ PK_KITE_REJECTED ∧
    PK_KITE_FLYING ≠ PK_KITE_REJECTED := by
  decide

/-! ## Frame codec -/

theorem length_digits_length (radix fuel n : Nat) (acc : CStr) :
    (length_digits radix fuel n acc).length = length_digit_count radix fuel n + acc.length := by
  induction fuel generalizing n acc with
  | zero => simp [length_digits, length_digit_count]
  | succ k ih =>
    simp only [length_digits, length_digit_count]
    split
    · simp only [List.length_cons]
      omega
    · rw [ih]
      simp only [List.length_cons]
      omega

/-- C4: `pk_reply_overhead(sid, n)` is the exact number of bytes of the reply
`pk_format_reply` builds for the same stream id and a payload of `n` bytes, for
every stream id, every payload size and every radix of the length. -/
theorem reply_overhead_exact (radix : Nat) (sid data : CStr) :
    pk_reply_overhead radix sid data.length = (pk_format_reply radix sid data).length := by
  have h2 : "\r\n".toList.length = 2 := by decide
  have h5 : "SID: ".toList.length = 5 := by decide
  simp only [pk_reply_overhead, pk_format_reply, pk_format_frame, List.length_append,
    length_digits_length, List.length_nil, h2, h5]

/-! ## Chunk headers -/

theorem pk_parse_header_lines_eq (chunk : pk_chunk) (lines : List CStr)
    (hc : chunk.header_count ≤ PK_MAX_CHUNK_HEADERS) :
    pk_parse_header_lines chunk lines =
      if chunk.header_count + lines.length ≤ PK_MAX_CHUNK_HEADERS then
        Except.ok ⟨chunk.header_count + lines.length, chunk.headers ++ lines⟩
      else Except.error PkParseError.syntaxError := by
  induction lines generalizing chunk with
  | nil => simp [pk_parse_header_lines, hc]
  | cons line rest ih =>
    simp only [pk_parse_header_lines, pk_chunk_add_header, List.length_cons]
    by_cases hlt : chunk.header_count < PK_MAX_CHUNK_HEADERS
    · rw [if_pos hlt]
      simp only []
      rw [ih _ (by exact hlt)]
      dsimp only
      by_cases hle : chunk.header_count + (rest.length + 1) ≤ PK_MAX_CHUNK_HEADERS
      · rw [if_pos hle, if_pos (by omega)]
        simp [Nat.add_assoc, Nat.add_comm 1]
      · rw [if_neg hle, if_neg (by omega)]
    · rw [if_neg hlt, if_neg (by omega)]

/-- C5: a parsed chunk never holds more than `PK_MAX_CHUNK_HEADERS` = 64 header
lines, and `header_count` is the number of lines stored; a frame with 65 header
lines is refused with a syntax error, a frame with at most 64 is accepted with
all its lines stored. -/
theorem chunk_headers_bounded (region : CStr) :
    (∀ chunk, pk_parse_chunk_header region = Except.ok chunk →
      chunk.header_count ≤ PK_MAX_CHUNK_HEADERS ∧ chunk.headers.length = chunk.header_count) ∧
    ((pk_header_lines region).length = PK_MAX_CHUNK_HEADERS + 1 →
      pk_parse_chunk_header region = Except.error PkParseError.syntaxError) ∧
    ((pk_header_lines region).length ≤ PK_MAX_CHUNK_HEADERS →
      pk_parse_chunk_header region =
        Except.ok ⟨(pk_header_lines region).length, pk_header_lines region⟩) := by
  have h := pk_parse_header_lines_eq ⟨0, []⟩ (pk_header_lines region) (Nat.zero_le _)
  simp only [Nat.zero_add, List.nil_append] at h
  refine ⟨?_, ?_, ?_⟩
  · intro chunk hc
    unfold pk_parse_chunk_header at hc
    rw [h] at hc
    by_cases hle : (pk_header_lines region).length ≤ PK_MAX_CHUNK_HEADERS
    · rw [if_pos hle] at hc
      cases hc
      exact ⟨hle, rfl⟩
    · rw [if_neg hle] at hc
      cases hc
  · intro h65
    unfold pk_parse_chunk_header
    rw [h, if_neg (by omega)]
  · intro hle
    unfold pk_parse_chunk_header
    rw [h, if_pos hle]

set_option maxRecDepth 100000 in
theorem chunk_headers_bounded_witness :
    pk_parse_chunk_header
        ((List.replicate 65 "A: 1\r\n".toList).flatten ++ "\r\n".toList) =
      Except.error PkParseError.syntaxError ∧
    pk_parse_chunk_header "SID: 1\r\nEOF: 1\r\n\r\nhello".toList =
      Except.ok ⟨2, ["SID: 1".toList, "EOF: 1".toList]⟩ :=
  ⟨(chunk_headers_bounded _).2.1 (by decide), (chunk_headers_bounded _).2.2 (by decide)⟩

/-! ## The handshake request -/

theorem sprintf_line (lit arg : CStr) (hl : '%' ∉ lit) :
    sprintf (lit ++ (convS ++ "\r\n".toList)) [arg] = some (lit ++ (arg ++ "\r\n".toList)) := by
  unfold sprintf
  rw [fmt_run_seq _ (fmt_run_lit _ _ _ hl), fmt_run_seq _ (fmt_run_s _ _ _),
    fmt_run_lit _ _ _ (by decide), Option.some_bind, if_pos rfl]
  simp only [List.nil_append, List.append_assoc]

theorem sprintf_session (id : CStr) :
    sprintf PK_HANDSHAKE_SESSION [id] =
      some ("X-PageKite-Replace: ".toList ++ (id ++ "\r\n".toList)) :=
  sprintf_line "X-PageKite-Replace: ".toList id (by decide)

theorem sprintf_kite (k : CStr) :
    sprintf PK_HANDSHAKE_KITE [k] = some ("X-PageKite: ".toList ++ (k ++ "\r\n".toList)) :=
  sprintf_line "X-PageKite: ".toList k (by decide)

/-- C8 (as stated, refuted): `PK_HANDSHAKE_SESSION` holds a bare `%s`; a session
id of 257 bytes is copied whole into the header, one byte more than
`PK_HANDSHAKE_SESSIONID_MAX`. -/
theorem handshake_session_id_not_capped :
    sprintf PK_HANDSHAKE_SESSION [List.replicate 257 'A'] =
      some ("X-PageKite-Replace: ".toList ++ (List.replicate 257 'A' ++ "\r\n".toList)) ∧
    PK_HANDSHAKE_SESSIONID_MAX < (List.replicate 257 'A').length :=
  ⟨sprintf_session _, by rw [List.length_replicate]; decide⟩

/-- C8 (amended): formatting `PK_HANDSHAKE_SESSION` copies the session id whole,
between `X-PageKite-Replace: ` and CRLF; the format sets no cap, so the header
holds at most `PK_HANDSHAKE_SESSIONID_MAX` = 256 bytes of the id (and is at
most 278 bytes long) exactly when the id passed in is at most 256 bytes long. -/
theorem handshake_session_copies_id (id header : CStr)
    (h : sprintf PK_HANDSHAKE_SESSION [id] = some header) :
    header = "X-PageKite-Replace: ".toList ++ (id ++ "\r\n".toList) ∧
    header.length = 22 + id.length ∧
    (header.length ≤ 22 + PK_HANDSHAKE_SESSIONID_MAX ↔
      id.length ≤ PK_HANDSHAKE_SESSIONID_MAX) := by
  rw [sprintf_session] at h
  have he := (Option.some.inj h).symm
  have h20 : "X-PageKite-Replace: ".toList.length = 20 := by decide
  have h2 : "\r\n".toList.length = 2 := by decide
  have hlen : header.length = 22 + id.length := by
    rw [he]
    simp only [List.length_append, h20, h2]
    omega
  exact ⟨he, hlen, by omega⟩

theorem handshake_session_copies_id_witness :
    sprintf PK_HANDSHAKE_SESSION ["0123abcd".toList] =
      some "X-PageKite-Replace: 0123abcd\r\n".toList ∧
    ("X-PageKite-Replace: 0123abcd\r\n".toList =
        "X-PageKite-Replace: ".toList ++ ("0123abcd".toList ++ "\r\n".toList) ∧
      "X-PageKite-Replace: 0123abcd\r\n".toList.length = 22 + "0123abcd".toList.length ∧
      ("X-PageKite-Replace: 0123abcd\r\n".toList.length ≤ 22 + PK_HANDSHAKE_SESSIONID_MAX ↔
        "0123abcd".toList.length ≤ PK_HANDSHAKE_SESSIONID_MAX)) :=
  ⟨by decide, handshake_session_copies_id "0123abcd".toList
    "X-PageKite-Replace: 0123abcd\r\n".toList (by decide)⟩

theorem split_crlf_cons (c d : Char) (cs l r : CStr) (ls : List CStr) (hc : c ≠ '\r')
    (h : split_crlf (d :: cs) = (l :: ls, r)) :
    split_crlf (c :: d :: cs) = ((c :: l) :: ls, r) := by
  rw [split_crlf]
  simp only [hc, false_and, if_false, h]

theorem split_crlf_line (l rest : CStr) (h : '\r' ∉ l) :
    split_crlf (l ++ '\r' :: '\n' :: rest) = (l :: (split_crlf rest).1, (split_crlf rest).2) := by
  induction l with
  | nil =>
    rw [List.nil_append, split_crlf]
    simp only [and_self, if_true]
  | cons c cs ih =>
    have hc : c ≠ '\r' := fun e => h (by simp [e])
    have hcs : '\r' ∉ cs := fun e => h (by simp [e])
    have ih := ih hcs
    cases cs with
    | nil => exact split_crlf_cons c '\r' ('\n' :: rest) _ _ _ hc ih
    | cons d ds => exact split_crlf_cons c d (ds ++ '\r' :: '\n' :: rest) _ _ _ hc ih

theorem split_crlf_lines (ls : List CStr) (rest : CStr) (h : ∀ l ∈ ls, '\r' ∉ l) :
    split_crlf ((ls.map fun l => l ++ "\r\n".toList).flatten ++ rest) =
      (ls ++ (split_crlf rest).1, (split_crlf rest).2) := by
  induction ls with
  | nil => simp
  | cons l ls ih =>
    have hl : '\r' ∉ l := h l (by simp)
    have ih := ih (fun x hx => h x (by simp [hx]))
    have e : ((l :: ls).map fun l => l ++ "\r\n".toList).flatten ++ rest =
        l ++ '\r' :: '\n' :: ((ls.map fun l => l ++ "\r\n".toList).flatten ++ rest) := by
      simp only [List.map_cons, List.flatten_cons, List.append_assoc]
      rfl
    rw [e, split_crlf_line _ _ hl, ih]
    rfl

theorem handshake_kite_lines_eq (kites : List CStr) :
    handshake_kite_lines kites =
      some ((kites.map fun k => ("X-PageKite: ".toList ++ k) ++ "\r\n".toList).flatten) := by
  induction kites with
  | nil => rfl
  | cons k ks ih =>
    simp only [handshake_kite_lines, sprintf_kite, ih, Option.some_bind, List.map_cons,
      List.flatten_cons, List.append_assoc]

/-- The request is its lines, each followed by CRLF, and a final CRLF. -/
theorem handshake_request_eq (android : Bool) (v : CStr) (session : Option CStr)
    (kites : List CStr) :
    handshake_request android v session kites =
      some (((handshake_lines android v session kites).map fun l => l ++ "\r\n".toList).flatten
        ++ "\r\n".toList) := by
  have hc : PK_HANDSHAKE_CONNECT = "CONNECT PageKite:1 HTTP/1.0".toList ++ "\r\n".toList := by
    decide
  have he : PK_HANDSHAKE_END = "\r\n".toList := rfl
  unfold handshake_request
  rw [handshake_kite_lines_eq, hc, he]
  cases session with
  | none =>
    cases android <;>
      simp [handshake_lines, PK_HANDSHAKE_FEATURES, List.map_append, List.flatten_append,
        Function.comp_def]
  | some id =>
    cases android <;>
      simp [handshake_lines, PK_HANDSHAKE_FEATURES, sprintf_session, List.map_append,
        List.flatten_append, Function.comp_def]

theorem not_mem_lit_append (c : Char) (lit x : CStr) (hl : c ∉ lit) (hx : c ∉ x) :
    c ∉ lit ++ x := by
  intro h
  rcases List.mem_append.mp h with h | h
  · exact hl h
  · exact hx h

theorem mem_handshake_lines (android : Bool) (v : CStr) (session : Option CStr)
    (kites : List CStr) (l : CStr) (h : l ∈ handshake_lines android v session kites) :
    l = "CONNECT PageKite:1 HTTP/1.0".toList ∨ l = "X-PageKite-Features: Mobile".toList ∨
    l = "X-PageKite-Version: ".toList ++ v ∨
    (∃ id, session = some id ∧ l = "X-PageKite-Replace: ".toList ++ id) ∨
    ∃ k ∈ kites, l = "X-PageKite: ".toList ++ k := by
  unfold handshake_lines at h
  rcases List.mem_cons.mp h with h | h
  · exact Or.inl h
  rcases List.mem_append.mp h with h | h
  · cases android
    · simp at h
    · simp only [if_true, List.mem_singleton] at h
      exact Or.inr (Or.inl h)
  rcases List.mem_cons.mp h with h | h
  · exact Or.inr (Or.inr (Or.inl h))
  rcases List.mem_append.mp h with h | h
  · cases session with
    | none => simp at h
    | some id =>
      simp only [List.mem_singleton] at h
      exact Or.inr (Or.inr (Or.inr (Or.inl ⟨id, rfl, h⟩)))
  · obtain ⟨k, hk, rfl⟩ := List.mem_map.mp h
    exact Or.inr (Or.inr (Or.inr (Or.inr ⟨k, hk, rfl⟩)))

theorem handshake_lines_filter (android : Bool) (v : CStr) (session : Option CStr)
    (kites : List CStr) :
    (handshake_lines android v session kites).filter
        (fun l => "X-PageKite: ".toList.isPrefixOf l) =
      kites.map fun k => "X-PageKite: ".toList ++ k := by
  have hk : (kites.map fun k => "X-PageKite: ".toList ++ k).filter
      (fun l => "X-PageKite: ".toList.isPrefixOf l) =
      kites.map fun k => "X-PageKite: ".toList ++ k := by
    rw [List.filter_eq_self]
    intro l hl
    obtain ⟨k, _, rfl⟩ := List.mem_map.mp hl
    exact List.isPrefixOf_iff_prefix.mpr (List.prefix_append _ _)
  have h1 : "X-PageKite: ".toList.isPrefixOf "CONNECT PageKite:1 HTTP/1.0".toList = false := by
    decide
  have h2 : "X-PageKite: ".toList.isPrefixOf "X-PageKite-Features: Mobile".toList = false := by
    decide
  have h3 : "X-PageKite: ".toList.isPrefixOf ("X-PageKite-Version: ".toList ++ v) = false := rfl
  have h4 : ∀ id : CStr,
      "X-PageKite: ".toList.isPrefixOf ("X-PageKite-Replace: ".toList ++ id) = false :=
    fun _ => rfl
  unfold handshake_lines
  cases android <;> cases session <;>
    simp only [Bool.false_eq_true, if_false, if_true, List.nil_append, List.cons_append,
      List.filter_cons, h1, h2, h3, h4, hk]

/-- C7 (as stated, refuted): a session id is written into the request as it is;
the id CR LF puts a blank line in the middle of the request, and an id that
carries a line break and `X-PageKite: ` adds a kite line that is no kite of the
request. -/
theorem handshake_session_id_breaks_lines :
    (handshake_request false "0.91".toList (some "\r\n".toList) ["k1".toList]).map split_crlf =
      some (["CONNECT PageKite:1 HTTP/1.0".toList, "X-PageKite-Version: 0.91".toList,
        "X-PageKite-Replace: ".toList, [], "X-PageKite: k1".toList, []], []) ∧
    (handshake_request false "0.91".toList (some "a\r\nX-PageKite: k0".toList)
        ["k1".toList]).map split_crlf =
      some (["CONNECT PageKite:1 HTTP/1.0".toList, "X-PageKite-Version: 0.91".toList,
        "X-PageKite-Replace: a".toList, "X-PageKite: k0".toList, "X-PageKite: k1".toList,
        []], []) := by
  decide

/-- C7 (amended): for every optional session id, every list of kite encodings and
every `PK_VERSION`, none of them holding CR or LF, the handshake request is
produced, every one of its lines ends in CRLF, its first line is
`CONNECT PageKite:1 HTTP/1.0`, its lines that start with `X-PageKite: ` are
the kite lines, one per kite and in order, and its only blank line is the last
line. -/
theorem handshake_request_well_formed (android : Bool) (v : CStr) (session : Option CStr)
    (kites : List CStr) (hv : '\r' ∉ v ∧ '\n' ∉ v)
    (hs : ∀ id, session = some id → '\r' ∉ id ∧ '\n' ∉ id)
    (hk : ∀ k ∈ kites, '\r' ∉ k ∧ '\n' ∉ k) :
    ∃ req, handshake_request android v session kites = some req ∧
      (split_crlf req).2 = [] ∧
      (split_crlf req).1.head? = some "CONNECT PageKite:1 HTTP/1.0".toList ∧
      (split_crlf req).1.filter (fun l => "X-PageKite: ".toList.isPrefixOf l) =
        (kites.map fun k => "X-PageKite: ".toList ++ k) ∧
      ∃ ls, (split_crlf req).1 = ls ++ [[]] ∧ [] ∉ ls := by
  have hcr : ∀ l ∈ handshake_lines android v session kites, '\r' ∉ l := by
    intro l hl
    rcases mem_handshake_lines _ _ _ _ _ hl with rfl | rfl | rfl | ⟨id, hid, rfl⟩ | ⟨k, hkm, rfl⟩
    · decide
    · decide
    · exact not_mem_lit_append _ _ _ (by decide) hv.1
    · exact not_mem_lit_append _ _ _ (by decide) (hs id hid).1
    · exact not_mem_lit_append _ _ _ (by decide) (hk k hkm).1
  have hne : [] ∉ handshake_lines android v session kites := by
    intro hl
    rcases mem_handshake_lines _ _ _ _ _ hl with h | h | h | ⟨id, _, h⟩ | ⟨k, _, h⟩ <;> cases h
  have hend : split_crlf "\r\n".toList = ([[]], []) := by decide
  have hsplit := split_crlf_lines (handshake_lines android v session kites) "\r\n".toList hcr
  rw [hend] at hsplit
  refine ⟨_, handshake_request_eq android v session kites, ?_, ?_, ?_, ?_⟩
  · rw [hsplit]
  · rw [hsplit]
    rfl
  · rw [hsplit]
    simp only [List.filter_append, handshake_lines_filter]
    simp
  · rw [hsplit]
    exact ⟨_, rfl, hne⟩

theorem handshake_request_well_formed_witness :
    ∃ req, handshake_request false "0.91".toList (some "0123abcd".toList)
        ["http:a.b:x:y".toList, "raw-22:a.b:x:z".toList] = some req ∧
      (split_crlf req).2 = [] ∧
      (split_crlf req).1.head? = some "CONNECT PageKite:1 HTTP/1.0".toList ∧
      (split_crlf req).1.filter (fun l => "X-PageKite: ".toList.isPrefixOf l) =
        (["http:a.b:x:y".toList, "raw-22:a.b:x:z".toList].map
          fun k => "X-PageKite: ".toList ++ k) ∧
      ∃ ls, (split_crlf req).1 = ls ++ [[]] ∧ [] ∉ ls :=
  handshake_request_well_formed false "0.91".toList (some "0123abcd".toList)
    ["http:a.b:x:y".toList, "raw-22:a.b:x:z".toList] (by decide)
    (by
      intro id h
      cases h
      decide)
    (by decide)

end PkProto
